import Mathlib

/-!
# Verification of the SchoolDataCodingChallenge core

A shallow embedding of the repository's two core subsystems:

* `lib/school_search.py` — the recursive whole-word search engine
  (`SchoolSearchEngine._build_cache`, `_match_words`, `phrase`, and the
  console loop's case folding);
* `lib/school_data.py` — the deduplicating entity registries (`City`,
  `Agency`), the classification enums with graceful lookup, and the
  counts-metadata layer (`CountsMetadata`).

Python strings are modelled as lists of code points (`Str := List Nat`);
Python exceptions are modelled with `Option`/`Except`; the class-level
mutable registries are modelled by explicit state passing.
-/

namespace SchoolData

/-- A Python string, as its list of code points. -/
abbrev Str : Type := List Nat

/-- Code points of a Lean string literal (used only to write concrete inputs). -/
def str (s : String) : Str := s.toList.map Char.toNat

/-- Python `str.lower`, modelled on the ASCII range: `A`–`Z` map to
`a`–`z`, every other code point is unchanged. -/
def lowerCp (c : Nat) : Nat := if 65 ≤ c ∧ c ≤ 90 then c + 32 else c

/-- `str.lower` over a whole string. -/
def lowerStr (s : Str) : Str := List.map lowerCp s

/-- An ASCII uppercase letter. -/
def isUpperAscii (c : Nat) : Bool := decide (65 ≤ c ∧ c ≤ 90)

/-- `w` is an initial segment of `o` (helper for substring containment). -/
def leadsWith : Str → Str → Bool
  | [], _ => true
  | _ :: _, [] => false
  | c :: w, d :: o => c == d && leadsWith w o

/-- Python `w in o` on strings: substring containment. -/
def isSubstr (w : Str) : Str → Bool
  | [] => leadsWith w []
  | o@(_ :: rest) => leadsWith w o || isSubstr w rest

/-- Python `s.split(" ")`: split on every single space (code point 32);
consecutive separators produce empty words, and the result is never the
empty list (splitting `""` yields `[""]`). -/
def splitWords : Str → List Str
  | [] => [[]]
  | c :: rest =>
    match splitWords rest with
    | [] => [[]]
    | w :: ws => if c = 32 then [] :: w :: ws else (c :: w) :: ws

/-- `SchoolSearchEngine._build_cache`: one lowercase string per record,
joining name, city and state with single spaces. -/
def buildCache (dataset : List (Str × Str × Str)) : List Str :=
  dataset.map fun i =>
    lowerStr i.1 ++ (32 :: lowerStr i.2.1) ++ (32 :: lowerStr i.2.2)

/-- `options = options or self._whole_terms`: an empty (or `None`)
candidate list is replaced by the whole-terms cache. -/
def orDefault (wt opts : List Str) : List Str :=
  if opts.isEmpty then wt else opts

/-- The `while len(results) < 3` backfill loop of `_match_words`, acting on
the reversed remaining-options list (Python `list.pop` takes the last
element).  Each iteration pops one element; if it is not already a result,
the loop pops a *second* element and appends that one.  A pop from an empty
list is Python's `IndexError`, modelled as `none`. -/
def backfillAux (rem results : List Str) : Option (List Str) :=
  if 3 ≤ results.length then some results
  else
    match rem with
    | [] => none
    | next :: rest =>
      if next ∈ results then backfillAux rest results
      else
        match rest with
        | [] => none
        | x :: rest2 => backfillAux rest2 (results ++ [x])

/-- `SchoolSearchEngine._match_words`: recursive whole-word filtering.
`wt` is `self._whole_terms`; the result is `none` when the Python code
would raise (the backfill's `IndexError`). -/
def matchWords (wt : List Str) : List Str → List Str → Option (List Str)
  | [], opts => some (orDefault wt opts)
  | [w], opts =>
    let options := orDefault wt opts
    let remaining := options.filter (fun o => isSubstr w o)
    if remaining.isEmpty then some (options.take 3)
    else some (remaining.take 3)
  | w :: w1 :: ws, opts =>
    let options := orDefault wt opts
    let remaining := options.filter (fun o => isSubstr w o)
    if remaining.isEmpty then
      (matchWords wt (w1 :: ws) options).bind fun r =>
        if r.length ≤ 3 then some r
        else
          (matchWords wt (w1 :: ws) r).bind fun results =>
            backfillAux r.reverse results
    else
      if remaining.length ≤ 3 then some remaining
      else
        (matchWords wt (w1 :: ws) remaining).bind fun results =>
          backfillAux remaining.reverse results

/-- `SchoolSearchEngine.phrase`: split on spaces, run `_match_words` with
`options = None`, and catch any exception, returning `[]` instead. -/
def phrase (wt : List Str) (p : Str) : List Str :=
  (matchWords wt (splitWords p) []).getD []

/-- The console loop (`console_input_search`) lowercases the input line
before handing it to `phrase`. -/
def consoleQuery (wt : List Str) (q : Str) : List Str :=
  phrase wt (lowerStr q)

/-! ## Entity registries (`lib/school_data.py`) -/

/-- `Search.search` restricted to the index view: the (ordered) list of
positions in `class_obj_list` whose object satisfies the match predicate.
Object identity is modelled by position in the registry list. -/
def searchIdx (p : α → Bool) : List α → List Nat
  | [] => []
  | x :: xs =>
    if p x then 0 :: (searchIdx p xs).map (· + 1)
    else (searchIdx p xs).map (· + 1)

/-- The error taxonomy's `InvalidIdentity` (Python: `ValueError` raised by
`City.get_or_create` on a malformed state abbreviation). -/
inductive RegError
  | invalidIdentity
deriving DecidableEq

/-- A tally dictionary (Python `dict` keyed by string, missing = 0). -/
abbrev CMap : Type := Str → Nat

/-- `d[k] += 1` with default-0 insertion. -/
def bump (m : CMap) (k : Str) : CMap :=
  fun x => if x = k then m x + 1 else m x

/-- The class-level mutable state of `City`: `class_obj_list` (instances,
in creation order; an instance is identified by its position) and the two
count dictionaries `_counts_city` and `_counts_state`. -/
structure CityReg where
  insts : List (Str × Str)
  countsCity : CMap
  countsState : CMap

/-- `City`'s pristine class-level state. -/
def cityInit : CityReg := ⟨[], fun _ => 0, fun _ => 0⟩

/-- `City.get_or_create`: validate the state abbreviation, search by both
identity fields, bump both request counters, then return the first match
or register a fresh instance. -/
def cityGetOrCreate (r : CityReg) (city state : Str) :
    Except RegError (Nat × CityReg) :=
  if state.length ≠ 2 then .error .invalidIdentity
  else
    let found := searchIdx (fun o => decide (o.1 = city ∧ o.2 = state)) r.insts
    let cc := bump r.countsCity city
    let cs := bump r.countsState state
    match found with
    | [] => .ok (r.insts.length, ⟨r.insts ++ [(city, state)], cc, cs⟩)
    | i :: _ => .ok (i, ⟨r.insts, cc, cs⟩)

/-- The result index of `City.get_or_create` (the returned instance). -/
def cityGoCIdx (r : CityReg) (city state : Str) : Option Nat :=
  (cityGetOrCreate r city state).toOption.map (·.1)

/-- The registry state after `City.get_or_create` (unchanged on error,
matching the Python code where the `ValueError` precedes every mutation). -/
def cityGoCReg (r : CityReg) (city state : Str) : CityReg :=
  match cityGetOrCreate r city state with
  | .ok (_, r') => r'
  | .error _ => r

/-- A sequence of `City.get_or_create` calls; a failing call leaves the
class-level state untouched (the caller catches the `ValueError` and moves
on, as `load_csv` does). -/
def runCityCalls (r : CityReg) : List (Str × Str) → CityReg
  | [] => r
  | (c, s) :: rest => runCityCalls (cityGoCReg r c s) rest

/-- `Agency.get_or_create`: search by both identity fields (`agency_id`,
`agency_name`), return the first match or register a fresh instance.  No
validation, no counters. -/
def agencyGetOrCreate (insts : List (Str × Str)) (aid aname : Str) :
    Nat × List (Str × Str) :=
  match searchIdx (fun o => decide (o.1 = aid ∧ o.2 = aname)) insts with
  | [] => (insts.length, insts ++ [(aid, aname)])
  | i :: _ => (i, insts)

/-- A sequence of `Agency.get_or_create` calls. -/
def runAgencyCalls (insts : List (Str × Str)) : List (Str × Str) → List (Str × Str)
  | [] => insts
  | (a, n) :: rest => runAgencyCalls (agencyGetOrCreate insts a n).2 rest

/-! ## Classification enums and code resolution -/

/-- `LocaleCodes` (`school_data.py`). -/
inductive LocaleCodes
  | LARGE_CITY | MIDSIZE_CITY | URBAN_FRINGE_LARGE_CITY | URBAN_FRINGE_MIDSIZE_CITY
  | LARGE_TOWN | SMALL_TOWN | RURAL_OUTSIDE_CBSA | RURAL_INSIDE_CBSA
deriving DecidableEq

/-- Enum member values of `LocaleCodes`. -/
def LocaleCodes.val : LocaleCodes → Int
  | .LARGE_CITY => 1 | .MIDSIZE_CITY => 2 | .URBAN_FRINGE_LARGE_CITY => 3
  | .URBAN_FRINGE_MIDSIZE_CITY => 4 | .LARGE_TOWN => 5 | .SMALL_TOWN => 6
  | .RURAL_OUTSIDE_CBSA => 7 | .RURAL_INSIDE_CBSA => 8

/-- Python `Enum.name` of a `LocaleCodes` member. -/
def LocaleCodes.ename : LocaleCodes → Str
  | .LARGE_CITY => str ("LARGE_CITY")
  | .MIDSIZE_CITY => str ("MIDSIZE_CITY")
  | .URBAN_FRINGE_LARGE_CITY => str ("URBAN_FRINGE_LARGE_CITY")
  | .URBAN_FRINGE_MIDSIZE_CITY => str ("URBAN_FRINGE_MIDSIZE_CITY")
  | .LARGE_TOWN => str ("LARGE_TOWN")
  | .SMALL_TOWN => str ("SMALL_TOWN")
  | .RURAL_OUTSIDE_CBSA => str ("RURAL_OUTSIDE_CBSA")
  | .RURAL_INSIDE_CBSA => str ("RURAL_INSIDE_CBSA")

/-- All members of `LocaleCodes`, in declaration order. -/
def LocaleCodes.members : List LocaleCodes :=
  [.LARGE_CITY, .MIDSIZE_CITY, .URBAN_FRINGE_LARGE_CITY, .URBAN_FRINGE_MIDSIZE_CITY,
   .LARGE_TOWN, .SMALL_TOWN, .RURAL_OUTSIDE_CBSA, .RURAL_INSIDE_CBSA]

/-- `SearchableEnum.find_val` for `LocaleCodes`: lookup by value, `None`
instead of `ValueError` on a miss. -/
def LocaleCodes.findVal (v : Int) : Option LocaleCodes :=
  (LocaleCodes.members.filter (fun c => decide (c.val = v))).head?

/-- `UrbanLocaleCodes` (`school_data.py`; `TIWN_REMOTE` is the source's
own spelling). -/
inductive UrbanLocaleCodes
  | CITY_LARGE | CITY_MIDSIZE | CITY_SMALL
  | SUBURB_LARGE | SUBURB_MIDSIZE | SUBURB_SMALL
  | TOWN_FRINGE | TOWN_DISTANT | TIWN_REMOTE
  | RURAL_FRINGE | RURAL_DISTANT | RURAL_REMOTE
deriving DecidableEq

/-- Enum member values of `UrbanLocaleCodes`. -/
def UrbanLocaleCodes.val : UrbanLocaleCodes → Int
  | .CITY_LARGE => 11 | .CITY_MIDSIZE => 12 | .CITY_SMALL => 13
  | .SUBURB_LARGE => 21 | .SUBURB_MIDSIZE => 22 | .SUBURB_SMALL => 23
  | .TOWN_FRINGE => 31 | .TOWN_DISTANT => 32 | .TIWN_REMOTE => 33
  | .RURAL_FRINGE => 41 | .RURAL_DISTANT => 42 | .RURAL_REMOTE => 43

/-- Python `Enum.name` of an `UrbanLocaleCodes` member. -/
def UrbanLocaleCodes.ename : UrbanLocaleCodes → Str
  | .CITY_LARGE => str ("CITY_LARGE")
  | .CITY_MIDSIZE => str ("CITY_MIDSIZE")
  | .CITY_SMALL => str ("CITY_SMALL")
  | .SUBURB_LARGE => str ("SUBURB_LARGE")
  | .SUBURB_MIDSIZE => str ("SUBURB_MIDSIZE")
  | .SUBURB_SMALL => str ("SUBURB_SMALL")
  | .TOWN_FRINGE => str ("TOWN_FRINGE")
  | .TOWN_DISTANT => str ("TOWN_DISTANT")
  | .TIWN_REMOTE => str ("TIWN_REMOTE")
  | .RURAL_FRINGE => str ("RURAL_FRINGE")
  | .RURAL_DISTANT => str ("RURAL_DISTANT")
  | .RURAL_REMOTE => str ("RURAL_REMOTE")

/-- All members of `UrbanLocaleCodes`, in declaration order. -/
def UrbanLocaleCodes.members : List UrbanLocaleCodes :=
  [.CITY_LARGE, .CITY_MIDSIZE, .CITY_SMALL, .SUBURB_LARGE, .SUBURB_MIDSIZE,
   .SUBURB_SMALL, .TOWN_FRINGE, .TOWN_DISTANT, .TIWN_REMOTE, .RURAL_FRINGE,
   .RURAL_DISTANT, .RURAL_REMOTE]

/-- `SearchableEnum.find_val` for `UrbanLocaleCodes`. -/
def UrbanLocaleCodes.findVal (v : Int) : Option UrbanLocaleCodes :=
  (UrbanLocaleCodes.members.filter (fun c => decide (c.val = v))).head?

/-- `SchoolStatusCodes` (`school_data.py`). -/
inductive SchoolStatusCodes
  | OPERATIONAL | CLOSED | OPENED | OPERATIONAL_NEWLY_LISTED
  | NEW_AGENCY | TEMP_CLOSED | WILL_BE_OPERATIONAL | REOPENED
deriving DecidableEq

/-- Enum member values of `SchoolStatusCodes`. -/
def SchoolStatusCodes.val : SchoolStatusCodes → Int
  | .OPERATIONAL => 1 | .CLOSED => 2 | .OPENED => 3 | .OPERATIONAL_NEWLY_LISTED => 4
  | .NEW_AGENCY => 5 | .TEMP_CLOSED => 6 | .WILL_BE_OPERATIONAL => 7 | .REOPENED => 8

/-- Python `Enum.name` of a `SchoolStatusCodes` member. -/
def SchoolStatusCodes.ename : SchoolStatusCodes → Str
  | .OPERATIONAL => str ("OPERATIONAL")
  | .CLOSED => str ("CLOSED")
  | .OPENED => str ("OPENED")
  | .OPERATIONAL_NEWLY_LISTED => str ("OPERATIONAL_NEWLY_LISTED")
  | .NEW_AGENCY => str ("NEW_AGENCY")
  | .TEMP_CLOSED => str ("TEMP_CLOSED")
  | .WILL_BE_OPERATIONAL => str ("WILL_BE_OPERATIONAL")
  | .REOPENED => str ("REOPENED")

/-- All members of `SchoolStatusCodes`, in declaration order. -/
def SchoolStatusCodes.members : List SchoolStatusCodes :=
  [.OPERATIONAL, .CLOSED, .OPENED, .OPERATIONAL_NEWLY_LISTED, .NEW_AGENCY,
   .TEMP_CLOSED, .WILL_BE_OPERATIONAL, .REOPENED]

/-- `SearchableEnum.find_val` for `SchoolStatusCodes`. -/
def SchoolStatusCodes.findVal (v : Int) : Option SchoolStatusCodes :=
  (SchoolStatusCodes.members.filter (fun c => decide (c.val = v))).head?

/-- Decimal digits of the Python built-in `int(...)` applied to a string
(model of plain decimal literals; an empty or non-digit string fails). -/
def parseDigits : Str → Option Nat
  | [] => none
  | ds => ds.foldl (fun acc d =>
      acc.bind fun n => if 48 ≤ d ∧ d ≤ 57 then some (n * 10 + (d - 48)) else none)
      (some 0)

/-- The Python built-in `int(str)` (modelled on plain optionally-signed
decimal literals; anything else raises `ValueError`, i.e. `none`). -/
def parseInt (s : Str) : Option Int :=
  match s with
  | 45 :: rest => (parseDigits rest).map fun n => -(n : Int)
  | 43 :: rest => (parseDigits rest).map fun n => (n : Int)
  | _ => (parseDigits s).map fun n => (n : Int)

/-- `convert_type(int, raw)` followed by `find_val`: a failed conversion
passes the raw string through, which then matches no enum value, so the
composite resolves to `none` exactly when the code is unknown or unparsed. -/
def resolveLocale (raw : Str) : Option LocaleCodes :=
  (parseInt raw).bind LocaleCodes.findVal

/-- Urban-locale resolution of a raw code string. -/
def resolveUrban (raw : Str) : Option UrbanLocaleCodes :=
  (parseInt raw).bind UrbanLocaleCodes.findVal

/-- Status resolution of a raw code string. -/
def resolveStatus (raw : Str) : Option SchoolStatusCodes :=
  (parseInt raw).bind SchoolStatusCodes.findVal

/-! ## Counts metadata and School construction -/

/-- `CountsMetadata.increment_count_metadata`: a `None` classification
increments nothing; otherwise the bucket named by the member is bumped. -/
def incrementCountMetadata (ename : α → Str) (code : Option α) (m : CMap) : CMap :=
  match code with
  | none => m
  | some c => bump m (ename c)

/-- Result type of `CountsMetadata.get_count_metadata` (Python returns
either a list of dictionaries or a single dictionary). -/
inductive CountResult
  | dicts (ds : List CMap)
  | single (m : CMap)

/-- Python `name in dict` / `dict[name]` over an insertion-ordered table. -/
def dictLookup : List (Str × CMap) → Str → Option CMap
  | [], _ => none
  | (k, m) :: rest, n => if k = n then some m else dictLookup rest n

/-- `CountsMetadata.get_count_metadata`: no name returns every tally map;
a known name returns its live map; an unknown name logs a warning (the
`Bool` component) and returns the empty list. -/
def getCountMetadata (lookup : List (Str × CMap)) : Option Str → CountResult × Bool
  | none => (.dicts (lookup.map (·.2)), false)
  | some n =>
    match dictLookup lookup n with
    | some m => (.single m, false)
    | none => (.dicts [], true)

/-- One CSV row's eleven string fields, in `School.__init__` order. -/
structure Row where
  sid : Str
  agency_id : Str
  agency_name : Str
  sname : Str
  city : Str
  state : Str
  lat : Str
  long : Str
  locale_code : Str
  urban_code : Str
  status_code : Str

/-- All class-level mutable state touched by `School.__init__`: the two
registries and the three classification tallies of `School`. -/
structure SysState where
  agencies : List (Str × Str)
  cityReg : CityReg
  localeCount : CMap
  urbanCount : CMap
  statusCount : CMap

/-- Pristine class-level state. -/
def initState : SysState :=
  ⟨[], cityInit, fun _ => 0, fun _ => 0, fun _ => 0⟩

/-- `School.__init__` on one row: get-or-create the agency, then the city
(whose `ValueError` aborts the construction, *after* the agency side effect
has happened), then resolve and tally the three classification codes.
Returns the updated class-level state and whether a School was created. -/
def buildSchool (st : SysState) (r : Row) : SysState × Bool :=
  let ag := agencyGetOrCreate st.agencies r.agency_id r.agency_name
  let st := { st with agencies := ag.2 }
  match cityGetOrCreate st.cityReg r.city r.state with
  | .error _ => (st, false)
  | .ok (_, creg) =>
    let st := { st with cityReg := creg }
    let st := { st with localeCount :=
      incrementCountMetadata LocaleCodes.ename (resolveLocale r.locale_code) st.localeCount }
    let st := { st with urbanCount :=
      incrementCountMetadata UrbanLocaleCodes.ename (resolveUrban r.urban_code) st.urbanCount }
    let st := { st with statusCount :=
      incrementCountMetadata SchoolStatusCodes.ename (resolveStatus r.status_code) st.statusCount }
    (st, true)

/-- `SchoolDataSet.load_csv`'s per-row loop: construct a School from each
row, skipping rows whose construction raised (`ValueError` is caught and
the loop continues). -/
def loadRows (st : SysState) : List Row → SysState
  | [] => st
  | r :: rest => loadRows (buildSchool st r).1 rest

/-- `School._counts_lookup`, over the live state. -/
def schoolCountsLookup (st : SysState) : List (Str × CMap) :=
  [(str ("locale"), st.localeCount),
   (str ("urban"), st.urbanCount),
   (str ("status"), st.statusCount)]

/-- Sum of the tallied counts across all labels of `LocaleCodes`. -/
def localeTotal (m : CMap) : Nat :=
  (LocaleCodes.members.map fun c => m c.ename).sum

/-- Sum of the tallied counts across all labels of `UrbanLocaleCodes`. -/
def urbanTotal (m : CMap) : Nat :=
  (UrbanLocaleCodes.members.map fun c => m c.ename).sum

/-- Sum of the tallied counts across all labels of `SchoolStatusCodes`. -/
def statusTotal (m : CMap) : Nat :=
  (SchoolStatusCodes.members.map fun c => m c.ename).sum

/-! ## Concrete inputs used in witnesses and counterexamples -/

/-- A four-entry cache on which the backfill loop misbehaves. -/
def wtC1 : List Str := [str ("ax"), str ("bx"), str ("cx"), str ("dx")]

/-- The three-entry cache from the specification's round-trip example. -/
def specCache : List Str :=
  [str ("lincoln elementary springfield il"),
   str ("springfield high springfield il"),
   str ("jefferson springfield il")]

/-- A four-entry lowercase cache separating `phrase` from its case-folded
variant. -/
def wtCase : List Str := [str ("ab"), str ("cd"), str ("ef"), str ("gh")]

/-- A one-entry city registry used in witnesses. -/
def cityRegEx : CityReg :=
  ⟨[(str ("springfield"), str ("il"))], fun _ => 0, fun _ => 0⟩

/-- A one-entry agency registry used in witnesses. -/
def agencyListEx : List (Str × Str) := [(str ("a1"), str ("agency one"))]

end SchoolData

namespace SchoolData

/-! ## Search-engine lemmas -/

theorem splitWords_ne_nil (q : Str) : splitWords q ≠ [] := by
  cases q with
  | nil => simp [splitWords]
  | cons c rest =>
    simp only [splitWords]
    cases h : splitWords rest with
    | nil => simp
    | cons w ws => simp only [h]; split <;> simp

theorem orDefault_nil (wt : List Str) : orDefault wt [] = wt := rfl

theorem orDefault_of_ne_nil (wt : List Str) {opts : List Str} (h : opts ≠ []) :
    orDefault wt opts = opts := by
  simp [orDefault, h]

theorem orDefault_idem (wt opts : List Str) :
    orDefault wt (orDefault wt opts) = orDefault wt opts := by
  by_cases h : opts = []
  · subst h
    by_cases hw : wt = [] <;> simp [orDefault, hw]
  · simp [orDefault_of_ne_nil wt h]

/-- A successful backfill run ends with exactly 3 results (or the input
results when those already reached 3). -/
theorem backfillAux_length :
    ∀ (rem res out : List Str), backfillAux rem res = some out →
      out.length = max res.length 3 := by
  intro rem res
  induction rem, res using backfillAux.induct with
  | case1 rem res h3 =>
    intro out h
    rw [backfillAux.eq_def, if_pos h3] at h
    simp only [Option.some.injEq] at h
    subst h
    omega
  | case2 res h3 =>
    intro out h
    rw [backfillAux.eq_def, if_neg h3] at h
    exact Option.noConfusion h
  | case3 res h3 x rest2 hmem ih =>
    intro out h
    rw [backfillAux.eq_def, if_neg h3] at h
    simp only [if_pos hmem] at h
    have := ih out h
    omega
  | case4 res h3 x hmem =>
    intro out h
    rw [backfillAux.eq_def, if_neg h3] at h
    simp only [if_neg hmem] at h
    exact Option.noConfusion h
  | case5 res h3 x hmem x1 rest2 ih =>
    intro out h
    rw [backfillAux.eq_def, if_neg h3] at h
    simp only [if_neg hmem] at h
    have := ih out h
    simp only [List.length_append, List.length_singleton] at this
    omega

/-- A successful backfill run extends the recursion's results by entries
drawn from the remaining pool. -/
theorem backfillAux_ext :
    ∀ (rem res out : List Str), backfillAux rem res = some out →
      ∃ t, out = res ++ t ∧ ∀ x ∈ t, x ∈ rem := by
  intro rem res
  induction rem, res using backfillAux.induct with
  | case1 rem res h3 =>
    intro out h
    rw [backfillAux.eq_def, if_pos h3] at h
    simp only [Option.some.injEq] at h
    exact ⟨[], by simp [h.symm]⟩
  | case2 res h3 =>
    intro out h
    rw [backfillAux.eq_def, if_neg h3] at h
    exact Option.noConfusion h
  | case3 res h3 x rest2 hmem ih =>
    intro out h
    rw [backfillAux.eq_def, if_neg h3] at h
    simp only [if_pos hmem] at h
    obtain ⟨t, ht, hsub⟩ := ih out h
    exact ⟨t, ht, fun y hy => List.mem_cons_of_mem x (hsub y hy)⟩
  | case4 res h3 x hmem =>
    intro out h
    rw [backfillAux.eq_def, if_neg h3] at h
    simp only [if_neg hmem] at h
    exact Option.noConfusion h
  | case5 res h3 x hmem x1 rest2 ih =>
    intro out h
    rw [backfillAux.eq_def, if_neg h3] at h
    simp only [if_neg hmem] at h
    obtain ⟨t, ht, hsub⟩ := ih out h
    refine ⟨x1 :: t, by simpa using ht, ?_⟩
    intro y hy
    rcases List.mem_cons.mp hy with h1 | h2
    · rw [h1]
      exact List.mem_cons_of_mem x (List.mem_cons_self _ _)
    · exact List.mem_cons_of_mem x (List.mem_cons_of_mem x1 (hsub y h2))

/-- Every string returned by `_match_words` comes from the (defaulted)
candidate set it was called on. -/
theorem matchWords_subset (wt : List Str) :
    ∀ (words opts res : List Str), matchWords wt words opts = some res →
      ∀ x ∈ res, x ∈ orDefault wt opts := by
  intro words
  induction words with
  | nil =>
    intro opts res h x hx
    simp only [matchWords, Option.some.injEq] at h
    exact h ▸ hx
  | cons w ws ih =>
    cases ws with
    | nil =>
      intro opts res h x hx
      simp only [matchWords] at h
      split at h <;> simp only [Option.some.injEq] at h <;> subst h
      · exact List.take_subset 3 _ hx
      · exact (List.mem_filter.mp (List.take_subset 3 _ hx)).1
    | cons w1 ws' =>
      intro opts res h x hx
      simp only [matchWords] at h
      split at h
      · rw [Option.bind_eq_some] at h
        obtain ⟨r, hr, hf⟩ := h
        have hrmem : ∀ y ∈ r, y ∈ orDefault wt opts := fun y hy =>
          orDefault_idem wt opts ▸ ih (orDefault wt opts) r hr y hy
        split at hf
        · simp only [Option.some.injEq] at hf
          exact hrmem x (hf ▸ hx)
        · rename_i hlen
          rw [Option.bind_eq_some] at hf
          obtain ⟨results, hres, hback⟩ := hf
          have hrne : r ≠ [] := by
            intro hr0; rw [hr0] at hlen; simp at hlen
          obtain ⟨t, ht, hsub⟩ := backfillAux_ext r.reverse results res hback
          have hresmem : ∀ y ∈ results, y ∈ r := fun y hy => by
            have := ih r results hres y hy
            rwa [orDefault_of_ne_nil wt hrne] at this
          subst ht
          rcases List.mem_append.mp hx with hx | hx
          · exact hrmem x (hresmem x hx)
          · exact hrmem x (List.mem_reverse.mp (hsub x hx))
      · split at h
        · simp only [Option.some.injEq] at h
          subst h
          exact (List.mem_filter.mp hx).1
        · rename_i hlen
          rw [Option.bind_eq_some] at h
          obtain ⟨results, hres, hback⟩ := h
          have hrne : (orDefault wt opts).filter (fun o => isSubstr w o) ≠ [] := by
            intro hr0; rw [hr0] at hlen; simp at hlen
          obtain ⟨t, ht, hsub⟩ := backfillAux_ext _ results res hback
          have hresmem : ∀ y ∈ results,
              y ∈ (orDefault wt opts).filter (fun o => isSubstr w o) := fun y hy => by
            have := ih _ results hres y hy
            rwa [orDefault_of_ne_nil wt hrne] at this
          subst ht
          rcases List.mem_append.mp hx with hx | hx
          · exact (List.mem_filter.mp (hresmem x hx)).1
          · exact (List.mem_filter.mp (List.mem_reverse.mp (hsub x hx))).1

/-- With at least one search word, `_match_words` never returns more than
3 results. -/
theorem matchWords_length (wt : List Str) :
    ∀ (words opts res : List Str), words ≠ [] →
      matchWords wt words opts = some res → res.length ≤ 3 := by
  intro words
  induction words with
  | nil => intro opts res h; exact absurd rfl h
  | cons w ws ih =>
    cases ws with
    | nil =>
      intro opts res _ h
      simp only [matchWords] at h
      split at h <;> simp only [Option.some.injEq] at h <;> subst h <;>
        simp [List.length_take]
    | cons w1 ws' =>
      intro opts res _ h
      simp only [matchWords] at h
      split at h
      · rw [Option.bind_eq_some] at h
        obtain ⟨r, hr, hf⟩ := h
        have hr3 : r.length ≤ 3 := ih _ r (by simp) hr
        split at hf
        · simp only [Option.some.injEq] at hf
          exact hf ▸ hr3
        · rename_i hlen
          exact absurd hr3 hlen
      · split at h
        · rename_i hlen
          simp only [Option.some.injEq] at h
          exact h ▸ hlen
        · rw [Option.bind_eq_some] at h
          obtain ⟨results, hres, hback⟩ := h
          have h3 : results.length ≤ 3 := ih _ results (by simp) hres
          have := backfillAux_length _ results res hback
          omega

/-! ## Case-folding lemmas -/

theorem leadsWith_mem :
    ∀ (w o : Str), leadsWith w o = true → ∀ c ∈ w, c ∈ o := by
  intro w
  induction w with
  | nil => intro o _ c hc; exact absurd hc (List.not_mem_nil c)
  | cons a w' ih =>
    intro o h c hc
    cases o with
    | nil => exact absurd h (by simp [leadsWith])
    | cons d o' =>
      simp only [leadsWith, Bool.and_eq_true, beq_iff_eq] at h
      rcases List.mem_cons.mp hc with h1 | h2
      · rw [h1, h.1]; exact List.mem_cons_self d o'
      · exact List.mem_cons_of_mem d (ih o' h.2 c h2)

theorem isSubstr_mem :
    ∀ (w o : Str), isSubstr w o = true → ∀ c ∈ w, c ∈ o := by
  intro w o
  induction o with
  | nil => intro h c hc; exact leadsWith_mem w [] h c hc
  | cons d o' ih =>
    intro h c hc
    simp only [isSubstr, Bool.or_eq_true] at h
    rcases h with h | h
    · exact leadsWith_mem w (d :: o') h c hc
    · exact List.mem_cons_of_mem d (ih h c hc)

theorem lowerCp_not_upper (c : Nat) : isUpperAscii (lowerCp c) = false := by
  unfold lowerCp isUpperAscii
  split <;> simp <;> omega

theorem lowerCp_idem (c : Nat) : lowerCp (lowerCp c) = lowerCp c := by
  by_cases h : 65 ≤ c ∧ c ≤ 90
  · have h2 : ¬(65 ≤ c + 32 ∧ c + 32 ≤ 90) := by omega
    simp [lowerCp, h, h2]
    omega
  · simp [lowerCp, h]

/-- Every code point of every cache entry avoids ASCII uppercase. -/
theorem buildCache_no_upper (ds : List (Str × Str × Str)) :
    ∀ e ∈ buildCache ds, ∀ c ∈ e, isUpperAscii c = false := by
  intro e he c hc
  simp only [buildCache, List.mem_map] at he
  obtain ⟨i, _, rfl⟩ := he
  rcases List.mem_append.mp hc with h | h
  · rcases List.mem_append.mp h with h | h
    · obtain ⟨y, _, rfl⟩ := List.mem_map.mp h
      exact lowerCp_not_upper y
    · rcases List.mem_cons.mp h with rfl | h
      · rfl
      · obtain ⟨y, _, rfl⟩ := List.mem_map.mp h
        exact lowerCp_not_upper y
  · rcases List.mem_cons.mp h with rfl | h
    · rfl
    · obtain ⟨y, _, rfl⟩ := List.mem_map.mp h
      exact lowerCp_not_upper y

/-! ## Claim theorems for the search engine -/

/-- C2: for every built cache and every query string, `phrase` returns
between 0 and 3 results, every result is an element of the cache, and a
failure inside `_match_words` is contained at the `phrase` boundary,
yielding `[]` instead of propagating. -/
theorem C2_phrase_safe (wt : List Str) (q : Str) :
    (phrase wt q).length ≤ 3 ∧ (∀ x ∈ phrase wt q, x ∈ wt) ∧
      (matchWords wt (splitWords q) [] = none → phrase wt q = []) := by
  have hsplit := splitWords_ne_nil q
  cases h : matchWords wt (splitWords q) [] with
  | none => refine ⟨?_, ?_, ?_⟩ <;> simp [phrase, h]
  | some res =>
    have hlen := matchWords_length wt (splitWords q) [] res hsplit h
    have hsub := matchWords_subset wt (splitWords q) [] res h
    rw [orDefault_nil] at hsub
    refine ⟨?_, ?_, ?_⟩
    · simpa [phrase, h] using hlen
    · intro x hx
      exact hsub x (by simpa [phrase, h] using hx)
    · intro hn
      exact Option.noConfusion hn

/-- Witness for C2 at a concrete cache and query (one on which the inner
resolution actually fails and is contained). -/
theorem C2_phrase_safe_witness :
    (phrase wtC1 (str ("x d"))).length ≤ 3 ∧
      (∀ x ∈ phrase wtC1 (str ("x d")), x ∈ wtC1) ∧
      (matchWords wtC1 (splitWords (str ("x d"))) [] = none ∧
        phrase wtC1 (str ("x d")) = []) :=
  ⟨(C2_phrase_safe wtC1 (str ("x d"))).1,
   (C2_phrase_safe wtC1 (str ("x d"))).2.1,
   by decide,
   (C2_phrase_safe wtC1 (str ("x d"))).2.2 (by decide)⟩

/-- C3: when the last remaining query word matches no entry of the
current candidate set, `_match_words` returns the first 3 elements of the
pre-filter candidate set in cache order; at the `phrase` level a
single-word query matching nothing returns the first 3 cache entries. -/
theorem C3_last_word_fallback :
    (∀ (wt opts : List Str) (w : Str),
        (∀ o ∈ orDefault wt opts, isSubstr w o = false) →
        matchWords wt [w] opts = some ((orDefault wt opts).take 3)) ∧
    (∀ (wt : List Str) (q : Str), splitWords q = [q] →
        (∀ o ∈ wt, isSubstr q o = false) → phrase wt q = wt.take 3) := by
  have h1 : ∀ (wt opts : List Str) (w : Str),
      (∀ o ∈ orDefault wt opts, isSubstr w o = false) →
      matchWords wt [w] opts = some ((orDefault wt opts).take 3) := by
    intro wt opts w hnone
    have hfil : (orDefault wt opts).filter (fun o => isSubstr w o) = [] :=
      List.filter_eq_nil_iff.mpr (fun a ha => by simp [hnone a ha])
    simp only [matchWords, hfil]
    simp
  refine ⟨h1, ?_⟩
  intro wt q hq hnone
  have := h1 wt [] q (by rw [orDefault_nil]; exact hnone)
  rw [orDefault_nil] at this
  simp [phrase, hq, this]

/-- Witness for C3: the specification's `"xyz123nomatch"` example over its
three-entry cache returns the first 3 cache entries in original order. -/
theorem C3_last_word_fallback_witness :
    splitWords (str ("xyz123nomatch")) = [str ("xyz123nomatch")] ∧
      (∀ o ∈ specCache, isSubstr (str ("xyz123nomatch")) o = false) ∧
      phrase specCache (str ("xyz123nomatch")) = specCache.take 3 :=
  ⟨by decide, by decide,
   C3_last_word_fallback.2 specCache (str ("xyz123nomatch")) (by decide) (by decide)⟩

/-- C4: a non-final query word matching no candidate is skipped:
`_match_words` recurses with the word list advanced by one against the
original pre-filter candidate set; concretely, `"lincoln nomatchword"`
over the specification cache yields exactly the "lincoln"-filtered
entries. -/
theorem C4_skip_unmatched :
    (∀ (wt opts : List Str) (w w1 : Str) (ws : List Str),
        (orDefault wt opts).filter (fun o => isSubstr w o) = [] →
        matchWords wt (w :: w1 :: ws) opts =
          matchWords wt (w1 :: ws) (orDefault wt opts)) ∧
    phrase specCache (str ("lincoln nomatchword")) =
      [str ("lincoln elementary springfield il")] := by
  constructor
  · intro wt opts w w1 ws hfil
    simp only [matchWords, hfil]
    simp only [List.isEmpty_nil, if_true]
    cases hr : matchWords wt (w1 :: ws) (orDefault wt opts) with
    | none => simp
    | some r =>
      have := matchWords_length wt (w1 :: ws) (orDefault wt opts) r (by simp) hr
      simp [this]
  · decide

/-- Witness for C4 at a concrete unmatched-first-word instance. -/
theorem C4_skip_unmatched_witness :
    (orDefault specCache []).filter (fun o => isSubstr (str ("zzz")) o) = [] ∧
      matchWords specCache [str ("zzz"), str ("lincoln")] [] =
        matchWords specCache [str ("lincoln")] (orDefault specCache []) :=
  ⟨by decide,
   C4_skip_unmatched.1 specCache [] (str ("zzz")) (str ("lincoln")) [] (by decide)⟩

/-- C1 (counterexample): on the cache `wtC1`, querying `"x a"` makes the
recursion return a single entry and the backfill then appends an entry it
never membership-checked, duplicating `"ax"`; querying `"x d"` exhausts
the filtered pool mid-backfill, so `_match_words` aborts (IndexError)
instead of terminating the backfill cleanly, and `phrase` returns `[]`. -/
theorem C1_counterexample :
    phrase wtC1 (str ("x a")) = [str ("ax"), str ("cx"), str ("ax")] ∧
      ¬ (phrase wtC1 (str ("x a"))).Nodup ∧
      matchWords wtC1 (splitWords (str ("x d"))) [] = none ∧
      phrase wtC1 (str ("x d")) = [] :=
  ⟨by decide, by decide, by decide, by decide⟩

/-- C1 (amended): after the deeper recursion returns with fewer than 3
entries, the backfill draws entries only from the filtered set computed
before that recursion and a successful run stops exactly at 3 entries;
however the appended entry is the pop *after* the membership check, so a
duplicate can be introduced, and exhausting the pool aborts with an
IndexError that `phrase` converts to `[]` rather than terminating the
backfill cleanly. -/
theorem C1_backfill_amended :
    (∀ rem res out : List Str, backfillAux rem res = some out →
        out.length = max res.length 3 ∧
          ∃ t, out = res ++ t ∧ ∀ x ∈ t, x ∈ rem) ∧
    phrase wtC1 (str ("x a")) = [str ("ax"), str ("cx"), str ("ax")] ∧
    matchWords wtC1 (splitWords (str ("x d"))) [] = none ∧
    phrase wtC1 (str ("x d")) = [] :=
  ⟨fun rem res out h =>
    ⟨backfillAux_length rem res out h, backfillAux_ext rem res out h⟩,
   by decide, by decide, by decide⟩

/-- Witness for the amended C1 on a concrete backfill run. -/
theorem C1_backfill_amended_witness :
    backfillAux [str ("b"), str ("c"), str ("d"), str ("e")] [str ("a")] =
      some [str ("a"), str ("c"), str ("e")] ∧
    (([str ("a"), str ("c"), str ("e")] : List Str).length =
        max ([str ("a")] : List Str).length 3 ∧
      ∃ t, [str ("a"), str ("c"), str ("e")] = [str ("a")] ++ t ∧
        ∀ x ∈ t, x ∈ [str ("b"), str ("c"), str ("d"), str ("e")]) :=
  ⟨by decide,
   C1_backfill_amended.1 [str ("b"), str ("c"), str ("d"), str ("e")]
     [str ("a")] [str ("a"), str ("c"), str ("e")] (by decide)⟩

/-- C10: `phrase` does not case-fold its argument: cache entries are all
lowercase so a query word with an ASCII uppercase letter matches no cache
entry; a concrete cache and query distinguish `phrase q` from
`phrase (lower q)`; and the console loop's lowercasing is what makes the
interactive search case-insensitive. -/
theorem C10_no_case_fold :
    (∀ (ds : List (Str × Str × Str)) (w : Str),
        (∃ c ∈ w, isUpperAscii c = true) →
        ∀ e ∈ buildCache ds, isSubstr w e = false) ∧
    phrase wtCase (str ("B")) ≠ phrase wtCase (lowerStr (str ("B"))) ∧
    (∀ (wt : List Str) (q q' : Str), lowerStr q = lowerStr q' →
        consoleQuery wt q = consoleQuery wt q') := by
  refine ⟨?_, by decide, ?_⟩
  · rintro ds w ⟨c, hcw, hcu⟩ e he
    cases hsub : isSubstr w e with
    | false => rfl
    | true =>
      have hce := isSubstr_mem w e hsub c hcw
      have := buildCache_no_upper ds e he c hce
      rw [this] at hcu
      exact Bool.noConfusion hcu
  · intro wt q q' h
    unfold consoleQuery
    rw [h]

/-- Witness for C10 at concrete inputs. -/
theorem C10_no_case_fold_witness :
    ((∃ c ∈ str ("Xq"), isUpperAscii c = true) ∧
      ∀ e ∈ buildCache [(str ("Ab"), str ("Cd"), str ("Ef"))],
        isSubstr (str ("Xq")) e = false) ∧
    (lowerStr (str ("AB")) = lowerStr (str ("ab")) ∧
      consoleQuery wtCase (str ("AB")) = consoleQuery wtCase (str ("ab"))) :=
  ⟨⟨by decide, C10_no_case_fold.1 [(str ("Ab"), str ("Cd"), str ("Ef"))]
      (str ("Xq")) (by decide)⟩,
   ⟨by decide, C10_no_case_fold.2.2 wtCase (str ("AB")) (str ("ab")) (by decide)⟩⟩

/-! ## Registry lemmas -/

theorem searchIdx_eq_nil (p : α → Bool) (l : List α) :
    searchIdx p l = [] ↔ ∀ x ∈ l, p x = false := by
  induction l with
  | nil => simp [searchIdx]
  | cons x xs ih =>
    by_cases h : p x
    · simp [searchIdx, h]
    · simp [searchIdx, h, List.map_eq_nil_iff, ih]

theorem mem_searchIdx (p : α → Bool) :
    ∀ (l : List α) (i : Nat),
      i ∈ searchIdx p l ↔ ∃ x, l[i]? = some x ∧ p x = true := by
  intro l
  induction l with
  | nil => intro i; simp [searchIdx]
  | cons y ys ih =>
    intro i
    cases i with
    | zero =>
      by_cases h : p y <;> simp [searchIdx, h, List.mem_map]
    | succ n =>
      by_cases h : p y <;>
        simp [searchIdx, h, List.mem_map, ih n]

theorem searchIdx_append_single (p : α → Bool) (l : List α) (y : α) :
    searchIdx p (l ++ [y]) =
      searchIdx p l ++ (if p y then [l.length] else []) := by
  induction l with
  | nil => by_cases h : p y <;> simp [searchIdx, h]
  | cons x xs ih =>
    by_cases h : p x <;> by_cases hy : p y <;>
      simp [searchIdx, h, hy, ih, List.map_append]

theorem searchIdx_key_eq_nil [DecidableEq α] (k : α) (l : List α) :
    searchIdx (fun o => decide (o = k)) l = [] ↔ k ∉ l := by
  rw [searchIdx_eq_nil]
  constructor
  · intro h hk
    simpa using h k hk
  · intro hk x hx
    simp only [decide_eq_false_iff_not]
    intro he
    exact hk (he ▸ hx)

theorem searchIdx_key_mem [DecidableEq α] (k : α) (l : List α) (i : Nat) :
    i ∈ searchIdx (fun o => decide (o = k)) l ↔ l[i]? = some k := by
  rw [mem_searchIdx]
  constructor
  · rintro ⟨x, hx, hpx⟩
    simp only [decide_eq_true_eq] at hpx
    exact hpx ▸ hx
  · intro h
    exact ⟨k, h, by simp⟩

/-- In a duplicate-free registry holding `k` at position `i`, the search
for `k` finds exactly position `i` first. -/
theorem searchIdx_key_head [DecidableEq α] {k : α} {l : List α}
    (hnd : l.Nodup) {i : Nat} (hi : l[i]? = some k) :
    ∃ rest, searchIdx (fun o => decide (o = k)) l = i :: rest := by
  have hmem : i ∈ searchIdx (fun o => decide (o = k)) l :=
    (searchIdx_key_mem k l i).mpr hi
  cases hs : searchIdx (fun o => decide (o = k)) l with
  | nil => rw [hs] at hmem; exact absurd hmem (List.not_mem_nil i)
  | cons j rest =>
    have hj : l[j]? = some k :=
      (searchIdx_key_mem k l j).mp (hs ▸ List.mem_cons_self j rest)
    have hlt : j < l.length := (List.getElem?_eq_some_iff.mp hj).1
    have : j = i := List.getElem?_inj hlt hnd (hj.trans hi.symm)
    exact ⟨rest, by rw [this]⟩

/-- The city match predicate coincides with whole-pair equality. -/
theorem citySearch_pred_eq (c s : Str) :
    (fun o : Str × Str => decide (o.1 = c ∧ o.2 = s)) =
      (fun o : Str × Str => decide (o = (c, s))) := by
  funext o
  simp [Prod.ext_iff]

/-- The agency match predicate coincides with whole-pair equality. -/
theorem agencySearch_pred_eq (a n : Str) :
    (fun o : Str × Str => decide (o.1 = a ∧ o.2 = n)) =
      (fun o : Str × Str => decide (o = (a, n))) := by
  funext o
  simp [Prod.ext_iff]

theorem cityGetOrCreate_invalid (r : CityReg) (c s : Str) (h : s.length ≠ 2) :
    cityGetOrCreate r c s = .error .invalidIdentity := by
  simp [cityGetOrCreate, h]

theorem cityGetOrCreate_create (r : CityReg) (c s : Str) (h2 : s.length = 2)
    (hnot : (c, s) ∉ r.insts) :
    cityGetOrCreate r c s =
      .ok (r.insts.length,
        ⟨r.insts ++ [(c, s)], bump r.countsCity c, bump r.countsState s⟩) := by
  have hc : ¬(s.length ≠ 2) := by omega
  simp only [cityGetOrCreate, if_neg hc, citySearch_pred_eq]
  rw [(searchIdx_key_eq_nil (c, s) r.insts).mpr hnot]

theorem cityGetOrCreate_found (r : CityReg) (c s : Str) (h2 : s.length = 2)
    (hnd : r.insts.Nodup) {i : Nat} (hi : r.insts[i]? = some (c, s)) :
    cityGetOrCreate r c s =
      .ok (i, ⟨r.insts, bump r.countsCity c, bump r.countsState s⟩) := by
  have hc : ¬(s.length ≠ 2) := by omega
  obtain ⟨rest, hrest⟩ := searchIdx_key_head hnd hi
  simp only [cityGetOrCreate, if_neg hc, citySearch_pred_eq]
  rw [hrest]

/-- Everything a successful `City.get_or_create` guarantees about the
registry it returns: duplicate-freedom is preserved, the returned index
holds the requested identity, and an immediate repeat call returns the
same index. -/
theorem cityGetOrCreate_ok_spec (r : CityReg) (c s : Str) (i : Nat)
    (r' : CityReg) (hnd : r.insts.Nodup)
    (h : cityGetOrCreate r c s = .ok (i, r')) :
    r'.insts.Nodup ∧ r'.insts[i]? = some (c, s) ∧ cityGoCIdx r' c s = some i := by
  have h2 : s.length = 2 := by
    by_contra hne
    rw [cityGetOrCreate_invalid r c s hne] at h
    exact Except.noConfusion h
  by_cases hmem : (c, s) ∈ r.insts
  · obtain ⟨i0, hlt, hget⟩ := List.getElem_of_mem hmem
    have hi0 : r.insts[i0]? = some (c, s) :=
      List.getElem?_eq_some_iff.mpr ⟨hlt, hget⟩
    rw [cityGetOrCreate_found r c s h2 hnd hi0] at h
    simp only [Except.ok.injEq, Prod.mk.injEq] at h
    obtain ⟨rfl, rfl⟩ := h
    refine ⟨hnd, hi0, ?_⟩
    rw [cityGoCIdx,
      cityGetOrCreate_found
        ⟨r.insts, bump r.countsCity c, bump r.countsState s⟩ c s h2 hnd hi0]
    rfl
  · rw [cityGetOrCreate_create r c s h2 hmem] at h
    simp only [Except.ok.injEq, Prod.mk.injEq] at h
    obtain ⟨rfl, rfl⟩ := h
    have hnd' : (r.insts ++ [(c, s)]).Nodup :=
      List.nodup_append.mpr
        ⟨hnd, List.nodup_singleton _, List.disjoint_singleton.mpr hmem⟩
    have hget : (r.insts ++ [(c, s)])[r.insts.length]? = some (c, s) :=
      List.getElem?_concat_length r.insts (c, s)
    refine ⟨hnd', hget, ?_⟩
    rw [cityGoCIdx,
      cityGetOrCreate_found
        ⟨r.insts ++ [(c, s)], bump r.countsCity c, bump r.countsState s⟩
        c s h2 hnd' hget]
    rfl

/-- `City.get_or_create` never breaks duplicate-freedom of the registry. -/
theorem cityGoCReg_nodup (r : CityReg) (c s : Str) (hnd : r.insts.Nodup) :
    (cityGoCReg r c s).insts.Nodup := by
  unfold cityGoCReg
  cases h : cityGetOrCreate r c s with
  | error e => exact hnd
  | ok v => exact (cityGetOrCreate_ok_spec r c s v.1 v.2 hnd (by rw [h])).1

/-- Any registry reachable by a sequence of `City.get_or_create` calls is
duplicate-free. -/
theorem runCityCalls_nodup :
    ∀ (calls : List (Str × Str)) (r : CityReg), r.insts.Nodup →
      (runCityCalls r calls).insts.Nodup := by
  intro calls
  induction calls with
  | nil => intro r h; exact h
  | cons p rest ih =>
    intro r h
    exact ih (cityGoCReg r p.1 p.2) (cityGoCReg_nodup r p.1 p.2 h)

theorem agencyGetOrCreate_create (insts : List (Str × Str)) (a n : Str)
    (hnot : (a, n) ∉ insts) :
    agencyGetOrCreate insts a n = (insts.length, insts ++ [(a, n)]) := by
  simp only [agencyGetOrCreate, agencySearch_pred_eq]
  rw [(searchIdx_key_eq_nil (a, n) insts).mpr hnot]

theorem agencyGetOrCreate_found (insts : List (Str × Str)) (a n : Str)
    (hnd : insts.Nodup) {i : Nat} (hi : insts[i]? = some (a, n)) :
    agencyGetOrCreate insts a n = (i, insts) := by
  obtain ⟨rest, hrest⟩ := searchIdx_key_head hnd hi
  simp only [agencyGetOrCreate, agencySearch_pred_eq]
  rw [hrest]

/-- Everything `Agency.get_or_create` guarantees: duplicate-freedom is
preserved, the returned index holds the requested identity, and an
immediate repeat call returns the same index. -/
theorem agencyGetOrCreate_spec (insts : List (Str × Str)) (a n : Str)
    (hnd : insts.Nodup) :
    (agencyGetOrCreate insts a n).2.Nodup ∧
      (agencyGetOrCreate insts a n).2[(agencyGetOrCreate insts a n).1]? =
        some (a, n) ∧
      (agencyGetOrCreate (agencyGetOrCreate insts a n).2 a n).1 =
        (agencyGetOrCreate insts a n).1 := by
  by_cases hmem : (a, n) ∈ insts
  · obtain ⟨i0, hlt, hget⟩ := List.getElem_of_mem hmem
    have hi0 : insts[i0]? = some (a, n) :=
      List.getElem?_eq_some_iff.mpr ⟨hlt, hget⟩
    rw [agencyGetOrCreate_found insts a n hnd hi0]
    exact ⟨hnd, hi0, by rw [agencyGetOrCreate_found insts a n hnd hi0]⟩
  · rw [agencyGetOrCreate_create insts a n hmem]
    have hnd' : (insts ++ [(a, n)]).Nodup :=
      List.nodup_append.mpr
        ⟨hnd, List.nodup_singleton _, List.disjoint_singleton.mpr hmem⟩
    have hget : (insts ++ [(a, n)])[insts.length]? = some (a, n) :=
      List.getElem?_concat_length insts (a, n)
    exact ⟨hnd', hget, by rw [agencyGetOrCreate_found _ a n hnd' hget]⟩

/-- Any agency registry reachable by `Agency.get_or_create` calls is
duplicate-free. -/
theorem runAgencyCalls_nodup :
    ∀ (calls : List (Str × Str)) (insts : List (Str × Str)), insts.Nodup →
      (runAgencyCalls insts calls).Nodup := by
  intro calls
  induction calls with
  | nil => intro insts h; exact h
  | cons p rest ih =>
    intro insts h
    exact ih (agencyGetOrCreate insts p.1 p.2).2
      ((agencyGetOrCreate_spec insts p.1 p.2 h).1)

/-! ## Claim theorems for the registries -/

/-- C5: for every valid identity, repeated `get_or_create` calls with
identical arguments return the identical instance (the same registry
position), and at most one registered instance exists per distinct
identity in every reachable registry state, for both `City` and
`Agency`. -/
theorem C5_identity :
    (∀ calls : List (Str × Str), (runCityCalls cityInit calls).insts.Nodup) ∧
    (∀ (r : CityReg) (c s : Str) (i : Nat) (r' : CityReg), r.insts.Nodup →
        cityGetOrCreate r c s = .ok (i, r') →
        r'.insts.Nodup ∧ r'.insts[i]? = some (c, s) ∧
          cityGoCIdx r' c s = some i) ∧
    (∀ (r : CityReg) (c s : Str) (i : Nat), r.insts.Nodup → s.length = 2 →
        r.insts[i]? = some (c, s) → cityGoCIdx r c s = some i) ∧
    (∀ calls : List (Str × Str), (runAgencyCalls [] calls).Nodup) ∧
    (∀ (insts : List (Str × Str)) (a n : Str), insts.Nodup →
        (agencyGetOrCreate insts a n).2.Nodup ∧
          (agencyGetOrCreate insts a n).2[(agencyGetOrCreate insts a n).1]? =
            some (a, n) ∧
          (agencyGetOrCreate (agencyGetOrCreate insts a n).2 a n).1 =
            (agencyGetOrCreate insts a n).1) ∧
    (∀ (insts : List (Str × Str)) (a n : Str) (i : Nat), insts.Nodup →
        insts[i]? = some (a, n) → (agencyGetOrCreate insts a n).1 = i) := by
  refine ⟨fun calls => runCityCalls_nodup calls cityInit (by simp [cityInit]),
    cityGetOrCreate_ok_spec, ?_,
    fun calls => runAgencyCalls_nodup calls [] (by simp),
    agencyGetOrCreate_spec, ?_⟩
  · intro r c s i hnd h2 hi
    rw [cityGoCIdx, cityGetOrCreate_found r c s h2 hnd hi]
    rfl
  · intro insts a n i hnd hi
    rw [agencyGetOrCreate_found insts a n hnd hi]

/-- Witness for C5 on concrete one-entry registries. -/
theorem C5_identity_witness :
    (cityRegEx.insts.Nodup ∧ (str ("il")).length = 2 ∧
      cityRegEx.insts[0]? = some (str ("springfield"), str ("il")) ∧
      cityGoCIdx cityRegEx (str ("springfield")) (str ("il")) = some 0) ∧
    (agencyListEx.Nodup ∧
      agencyListEx[0]? = some (str ("a1"), str ("agency one")) ∧
      (agencyGetOrCreate agencyListEx (str ("a1")) (str ("agency one"))).1 = 0) :=
  ⟨⟨by decide, by decide, by decide,
    C5_identity.2.2.1 cityRegEx (str ("springfield")) (str ("il")) 0
      (by decide) (by decide) (by decide)⟩,
   ⟨by decide, by decide,
    C5_identity.2.2.2.2.2 agencyListEx (str ("a1")) (str ("agency one")) 0
      (by decide) (by decide)⟩⟩

theorem length_filter_cons (p : α → Bool) (a : α) (l : List α) :
    (List.filter p (a :: l)).length =
      (List.filter p l).length + (if p a = true then 1 else 0) := by
  rw [List.filter_cons]
  split <;> simp

/-- Counter behaviour of a single `City.get_or_create` call. -/
theorem cityGoCReg_counts (r : CityReg) (c s : Str) (x : Str) :
    (cityGoCReg r c s).countsCity x =
      r.countsCity x + (if c = x ∧ s.length = 2 then 1 else 0) ∧
    (cityGoCReg r c s).countsState x =
      r.countsState x + (if s = x ∧ s.length = 2 then 1 else 0) := by
  by_cases h2 : s.length = 2
  · have hc : ¬(s.length ≠ 2) := by omega
    have hex : ∃ cc : Nat × List (Str × Str), cityGetOrCreate r c s =
        .ok (cc.1, ⟨cc.2, bump r.countsCity c, bump r.countsState s⟩) := by
      simp only [cityGetOrCreate, if_neg hc]
      cases searchIdx (fun o => decide (o.1 = c ∧ o.2 = s)) r.insts with
      | nil => exact ⟨(r.insts.length, r.insts ++ [(c, s)]), rfl⟩
      | cons j rest => exact ⟨(j, r.insts), rfl⟩
    obtain ⟨cc, hcc⟩ := hex
    rw [cityGoCReg, hcc]
    simp only [bump, h2, and_true]
    constructor <;> split <;> simp_all [eq_comm]
  · rw [cityGoCReg, cityGetOrCreate_invalid r c s h2]
    simp [h2]

/-- Request counters over a whole call sequence: each counter bucket ends
at the number of valid calls that named it. -/
theorem runCityCalls_counts :
    ∀ (calls : List (Str × Str)) (r : CityReg) (x : Str),
      (runCityCalls r calls).countsCity x =
        r.countsCity x +
          (calls.filter fun q => decide (q.1 = x ∧ q.2.length = 2)).length ∧
      (runCityCalls r calls).countsState x =
        r.countsState x +
          (calls.filter fun q => decide (q.2 = x ∧ q.2.length = 2)).length := by
  intro calls
  induction calls with
  | nil => intro r x; simp [runCityCalls]
  | cons p rest ih =>
    intro r x
    obtain ⟨c, s⟩ := p
    have hstep := cityGoCReg_counts r c s x
    have hrec := ih (cityGoCReg r c s) x
    simp only [runCityCalls]
    constructor
    · rw [hrec.1, hstep.1, length_filter_cons]
      simp only [decide_eq_true_eq]
      by_cases hcs : c = x ∧ s.length = 2 <;> simp [hcs] <;> try omega
    · rw [hrec.2, hstep.2, length_filter_cons]
      simp only [decide_eq_true_eq]
      by_cases hcs : s = x ∧ s.length = 2 <;> simp [hcs] <;> try omega

/-- C6: every `City.get_or_create` call with a valid 2-character state
bumps the counter for its city name and the counter for its state each
exactly once, hit or miss, so after any call sequence each bucket equals
the number of valid invocations naming it. -/
theorem C6_request_counts :
    (∀ (r : CityReg) (c s : Str), s.length = 2 →
        (cityGoCReg r c s).countsCity c = r.countsCity c + 1 ∧
        (cityGoCReg r c s).countsState s = r.countsState s + 1) ∧
    (∀ (calls : List (Str × Str)) (c s : Str),
        (runCityCalls cityInit calls).countsCity c =
          (calls.filter fun q => decide (q.1 = c ∧ q.2.length = 2)).length ∧
        (runCityCalls cityInit calls).countsState s =
          (calls.filter fun q => decide (q.2 = s ∧ q.2.length = 2)).length) := by
  constructor
  · intro r c s h2
    refine ⟨?_, ?_⟩
    · rw [(cityGoCReg_counts r c s c).1]; simp [h2]
    · rw [(cityGoCReg_counts r c s s).2]; simp [h2]
  · intro calls c s
    have h1 := runCityCalls_counts calls cityInit c
    have h2 := runCityCalls_counts calls cityInit s
    exact ⟨by simpa [cityInit] using h1.1, by simpa [cityInit] using h2.2⟩

/-- Witness for C6 on a concrete hit-after-miss call pair. -/
theorem C6_request_counts_witness :
    ((str ("il")).length = 2 ∧
      (cityGoCReg cityRegEx (str ("springfield")) (str ("il"))).countsCity
          (str ("springfield")) =
        cityRegEx.countsCity (str ("springfield")) + 1 ∧
      (cityGoCReg cityRegEx (str ("springfield")) (str ("il"))).countsState
          (str ("il")) =
        cityRegEx.countsState (str ("il")) + 1) :=
  ⟨by decide,
   C6_request_counts.1 cityRegEx (str ("springfield")) (str ("il")) (by decide)⟩

/-- C7: `City.get_or_create` with a state abbreviation whose length is
not 2 fails with `InvalidIdentity`, registers no instance, leaves both
occurrence counters unchanged, and the failure propagates to the School
constructor, which aborts without touching the city registry or the
classification tallies. -/
theorem C7_invalid_state (r : CityReg) (c s : Str) (h : s.length ≠ 2) :
    cityGetOrCreate r c s = .error .invalidIdentity ∧
    cityGoCReg r c s = r ∧
    (∀ calls, runCityCalls r ((c, s) :: calls) = runCityCalls r calls) ∧
    (∀ (st : SysState) (row : Row), row.city = c → row.state = s →
        (buildSchool st row).2 = false ∧
        (buildSchool st row).1.cityReg = st.cityReg ∧
        (buildSchool st row).1.localeCount = st.localeCount ∧
        (buildSchool st row).1.urbanCount = st.urbanCount ∧
        (buildSchool st row).1.statusCount = st.statusCount) := by
  have herr := cityGetOrCreate_invalid r c s h
  have hreg : cityGoCReg r c s = r := by rw [cityGoCReg, herr]
  refine ⟨herr, hreg, fun calls => by rw [runCityCalls, hreg], ?_⟩
  intro st row hc hs
  have herr2 : cityGetOrCreate
      ({ st with agencies :=
        (agencyGetOrCreate st.agencies row.agency_id row.agency_name).2 } :
          SysState).cityReg row.city row.state = .error .invalidIdentity := by
    rw [hc, hs]
    exact cityGetOrCreate_invalid _ c s h
  rw [buildSchool, herr2]
  exact ⟨rfl, rfl, rfl, rfl, rfl⟩

/-- Witness for C7 with a 3-letter state abbreviation. -/
theorem C7_invalid_state_witness :
    (str ("abc")).length ≠ 2 ∧
      cityGetOrCreate cityRegEx (str ("springfield")) (str ("abc")) =
        .error .invalidIdentity ∧
      cityGoCReg cityRegEx (str ("springfield")) (str ("abc")) = cityRegEx :=
  ⟨by decide,
   (C7_invalid_state cityRegEx (str ("springfield")) (str ("abc")) (by decide)).1,
   (C7_invalid_state cityRegEx (str ("springfield")) (str ("abc")) (by decide)).2.1⟩

/-! ## Tally lemmas -/

theorem sum_map_bump (f : β → Str) (l : List β) (m : CMap) (k : Str) :
    (l.map fun c => bump m k (f c)).sum =
      (l.map fun c => m (f c)).sum + (l.map f).count k := by
  induction l with
  | nil => simp
  | cons x xs ih =>
    simp only [List.map_cons, List.sum_cons, List.count_cons, ih]
    by_cases h : f x = k <;> simp [bump, h] <;> omega

theorem count_eq_one_of_nodup [BEq β] [LawfulBEq β] {a : β} {l : List β}
    (hnd : l.Nodup) (h : a ∈ l) : l.count a = 1 := by
  induction l with
  | nil => cases h
  | cons x xs ih =>
    rw [List.count_cons]
    rcases List.mem_cons.mp h with h1 | h1
    · subst h1
      have hx : a ∉ xs := (List.nodup_cons.mp hnd).1
      have : xs.count a = 0 := List.count_eq_zero.mpr hx
      simp [this]
    · have hne : x ≠ a := by
        rintro rfl
        exact (List.nodup_cons.mp hnd).1 h1
      rw [ih (List.nodup_cons.mp hnd).2 h1]
      simp [hne]

/-- Incrementing a tally adds one to the sum over all labels exactly when
the classification resolved (given distinct labels that cover the enum). -/
theorem total_increment (f : β → Str) (members : List β)
    (hnd : (members.map f).Nodup) (hmem : ∀ b : β, b ∈ members)
    (code : Option β) (m : CMap) :
    (members.map fun c => (incrementCountMetadata f code m) (f c)).sum =
      (members.map fun c => m (f c)).sum + (if code.isSome then 1 else 0) := by
  cases code with
  | none => simp [incrementCountMetadata]
  | some b =>
    simp only [incrementCountMetadata, Option.isSome_some, if_pos]
    rw [sum_map_bump]
    have h1 : (members.map f).count (f b) = 1 :=
      count_eq_one_of_nodup hnd (List.mem_map_of_mem f (hmem b))
    rw [h1]

theorem localeNames_nodup : (LocaleCodes.members.map LocaleCodes.ename).Nodup := by
  decide

theorem localeMembers_complete : ∀ b : LocaleCodes, b ∈ LocaleCodes.members := by
  intro b
  cases b <;> simp [LocaleCodes.members]

theorem urbanNames_nodup :
    (UrbanLocaleCodes.members.map UrbanLocaleCodes.ename).Nodup := by
  decide

theorem urbanMembers_complete : ∀ b : UrbanLocaleCodes, b ∈ UrbanLocaleCodes.members := by
  intro b
  cases b <;> simp [UrbanLocaleCodes.members]

theorem statusNames_nodup :
    (SchoolStatusCodes.members.map SchoolStatusCodes.ename).Nodup := by
  decide

theorem statusMembers_complete :
    ∀ b : SchoolStatusCodes, b ∈ SchoolStatusCodes.members := by
  intro b
  cases b <;> simp [SchoolStatusCodes.members]

/-- A valid state abbreviation makes `City.get_or_create` succeed. -/
theorem cityGetOrCreate_ok_of_valid (r : CityReg) (c s : Str)
    (h2 : s.length = 2) :
    ∃ v, cityGetOrCreate r c s = .ok v := by
  have hc : ¬(s.length ≠ 2) := by omega
  simp only [cityGetOrCreate, if_neg hc]
  cases searchIdx (fun o => decide (o.1 = c ∧ o.2 = s)) r.insts with
  | nil => exact ⟨_, rfl⟩
  | cons j rest => exact ⟨_, rfl⟩

/-- One `School.__init__` call moves each of the three tally sums up by
one exactly when the corresponding raw code resolved (and the record
survived city validation). -/
theorem buildSchool_totals (st : SysState) (r : Row) :
    localeTotal (buildSchool st r).1.localeCount =
      localeTotal st.localeCount +
        (if r.state.length = 2 ∧ (resolveLocale r.locale_code).isSome
          then 1 else 0) ∧
    urbanTotal (buildSchool st r).1.urbanCount =
      urbanTotal st.urbanCount +
        (if r.state.length = 2 ∧ (resolveUrban r.urban_code).isSome
          then 1 else 0) ∧
    statusTotal (buildSchool st r).1.statusCount =
      statusTotal st.statusCount +
        (if r.state.length = 2 ∧ (resolveStatus r.status_code).isSome
          then 1 else 0) ∧
    (buildSchool st r).2 = decide (r.state.length = 2) := by
  by_cases h2 : r.state.length = 2
  · obtain ⟨⟨i, creg⟩, hv⟩ :=
      cityGetOrCreate_ok_of_valid st.cityReg r.city r.state h2
    rw [buildSchool]
    simp only [hv]
    refine ⟨?_, ?_, ?_, by simp [h2]⟩
    · simp only [localeTotal, h2, true_and]
      rw [total_increment LocaleCodes.ename LocaleCodes.members
        localeNames_nodup localeMembers_complete]
    · simp only [urbanTotal, h2, true_and]
      rw [total_increment UrbanLocaleCodes.ename UrbanLocaleCodes.members
        urbanNames_nodup urbanMembers_complete]
    · simp only [statusTotal, h2, true_and]
      rw [total_increment SchoolStatusCodes.ename SchoolStatusCodes.members
        statusNames_nodup statusMembers_complete]
  · have herr := cityGetOrCreate_invalid st.cityReg r.city r.state h2
    rw [buildSchool]
    simp only [herr]
    simp [h2]

/-- Tally sums over a whole load run. -/
theorem loadRows_totals :
    ∀ (rows : List Row) (st : SysState),
      localeTotal (loadRows st rows).localeCount =
        localeTotal st.localeCount +
          (rows.filter fun r =>
            decide (r.state.length = 2 ∧ (resolveLocale r.locale_code).isSome)).length ∧
      urbanTotal (loadRows st rows).urbanCount =
        urbanTotal st.urbanCount +
          (rows.filter fun r =>
            decide (r.state.length = 2 ∧ (resolveUrban r.urban_code).isSome)).length ∧
      statusTotal (loadRows st rows).statusCount =
        statusTotal st.statusCount +
          (rows.filter fun r =>
            decide (r.state.length = 2 ∧ (resolveStatus r.status_code).isSome)).length := by
  intro rows
  induction rows with
  | nil => intro st; simp [loadRows]
  | cons r rest ih =>
    intro st
    have hstep := buildSchool_totals st r
    have hrec := ih (buildSchool st r).1
    simp only [loadRows]
    refine ⟨?_, ?_, ?_⟩
    · rw [hrec.1, hstep.1, length_filter_cons]
      simp only [decide_eq_true_eq]
      by_cases hcs : r.state.length = 2 ∧ (resolveLocale r.locale_code).isSome <;>
        simp [hcs] <;> try omega
    · rw [hrec.2.1, hstep.2.1, length_filter_cons]
      simp only [decide_eq_true_eq]
      by_cases hcs : r.state.length = 2 ∧ (resolveUrban r.urban_code).isSome <;>
        simp [hcs] <;> try omega
    · rw [hrec.2.2, hstep.2.2.1, length_filter_cons]
      simp only [decide_eq_true_eq]
      by_cases hcs : r.state.length = 2 ∧ (resolveStatus r.status_code).isSome <;>
        simp [hcs] <;> try omega

/-- C8: each School construction increments a category's tally exactly
when its raw code resolved to a known classification, the three
categories keep independent tallies, and over any load run the sum of a
category's tallied counts equals the number of Schools successfully
constructed whose raw code resolved in that category. -/
theorem C8_tally_sums :
    (∀ (st : SysState) (r : Row),
        localeTotal (buildSchool st r).1.localeCount =
          localeTotal st.localeCount +
            (if r.state.length = 2 ∧ (resolveLocale r.locale_code).isSome
              then 1 else 0) ∧
        urbanTotal (buildSchool st r).1.urbanCount =
          urbanTotal st.urbanCount +
            (if r.state.length = 2 ∧ (resolveUrban r.urban_code).isSome
              then 1 else 0) ∧
        statusTotal (buildSchool st r).1.statusCount =
          statusTotal st.statusCount +
            (if r.state.length = 2 ∧ (resolveStatus r.status_code).isSome
              then 1 else 0) ∧
        (buildSchool st r).2 = decide (r.state.length = 2)) ∧
    (∀ rows : List Row,
        localeTotal (loadRows initState rows).localeCount =
          (rows.filter fun r =>
            decide (r.state.length = 2 ∧ (resolveLocale r.locale_code).isSome)).length ∧
        urbanTotal (loadRows initState rows).urbanCount =
          (rows.filter fun r =>
            decide (r.state.length = 2 ∧ (resolveUrban r.urban_code).isSome)).length ∧
        statusTotal (loadRows initState rows).statusCount =
          (rows.filter fun r =>
            decide (r.state.length = 2 ∧ (resolveStatus r.status_code).isSome)).length) := by
  refine ⟨buildSchool_totals, ?_⟩
  intro rows
  have h := loadRows_totals rows initState
  have hz : localeTotal initState.localeCount = 0 ∧
      urbanTotal initState.urbanCount = 0 ∧
      statusTotal initState.statusCount = 0 := by
    refine ⟨?_, ?_, ?_⟩ <;> simp [localeTotal, urbanTotal, statusTotal, initState]
  exact ⟨by rw [h.1, hz.1]; omega,
         by rw [h.2.1, hz.2.1]; omega,
         by rw [h.2.2, hz.2.2]; omega⟩

/-- C9: `get_count_metadata` with an unrecognized category name never
raises: it returns an empty result and emits a diagnostic; a recognized
name returns the live tally map for that category; no name returns the
sequence of all category tally maps — both generically and on `School`'s
three-category lookup table. -/
theorem C9_counts_query :
    (∀ (lookup : List (Str × CMap)) (n : Str), dictLookup lookup n = none →
        getCountMetadata lookup (some n) = (.dicts [], true)) ∧
    (∀ (lookup : List (Str × CMap)) (n : Str) (m : CMap),
        dictLookup lookup n = some m →
        getCountMetadata lookup (some n) = (.single m, false)) ∧
    (∀ lookup : List (Str × CMap),
        getCountMetadata lookup none = (.dicts (lookup.map (·.2)), false)) ∧
    (∀ (st : SysState) (n : Str), n ≠ str ("locale") → n ≠ str ("urban") →
        n ≠ str ("status") →
        getCountMetadata (schoolCountsLookup st) (some n) = (.dicts [], true)) ∧
    (∀ st : SysState,
        getCountMetadata (schoolCountsLookup st) (some (str ("locale"))) =
          (.single st.localeCount, false) ∧
        getCountMetadata (schoolCountsLookup st) (some (str ("urban"))) =
          (.single st.urbanCount, false) ∧
        getCountMetadata (schoolCountsLookup st) (some (str ("status"))) =
          (.single st.statusCount, false) ∧
        getCountMetadata (schoolCountsLookup st) none =
          (.dicts [st.localeCount, st.urbanCount, st.statusCount], false)) := by
  have hA : ∀ (lookup : List (Str × CMap)) (n : Str),
      dictLookup lookup n = none →
      getCountMetadata lookup (some n) = (.dicts [], true) := by
    intro lookup n h
    simp [getCountMetadata, h]
  have hB : ∀ (lookup : List (Str × CMap)) (n : Str) (m : CMap),
      dictLookup lookup n = some m →
      getCountMetadata lookup (some n) = (.single m, false) := by
    intro lookup n m h
    simp [getCountMetadata, h]
  refine ⟨hA, hB, fun lookup => rfl, ?_, ?_⟩
  · intro st n h1 h2 h3
    exact hA _ n (by simp [dictLookup, schoolCountsLookup,
      Ne.symm h1, Ne.symm h2, Ne.symm h3])
  · intro st
    refine ⟨hB _ _ _ rfl, hB _ _ _ ?_, hB _ _ _ ?_, rfl⟩
    · simp [dictLookup, schoolCountsLookup,
        (by decide : str ("locale") ≠ str ("urban"))]
    · simp [dictLookup, schoolCountsLookup,
        (by decide : str ("locale") ≠ str ("status")),
        (by decide : str ("urban") ≠ str ("status"))]

/-- Witness for C9 with an unrecognized category name. -/
theorem C9_counts_query_witness :
    (str ("bogus") ≠ str ("locale") ∧ str ("bogus") ≠ str ("urban") ∧
      str ("bogus") ≠ str ("status")) ∧
    getCountMetadata (schoolCountsLookup initState) (some (str ("bogus"))) =
      (.dicts [], true) :=
  ⟨⟨by decide, by decide, by decide⟩,
   C9_counts_query.2.2.2.1 initState (str ("bogus"))
     (by decide) (by decide) (by decide)⟩

end SchoolData
